import Mathlib

/-!
Verification of the attention-analysis core of `paperlab/zoo/vit/exp.py`:
attention rollout, mean attention distance, patch-to-pixel upsampling and
the attention cache. Tensors are embedded as functions into exact
arithmetic (`ℚ` for the rollout algebra, `ℝ` where the code takes a
square root); the batch/sample axis is an explicit `Fin`/`ℕ` index.
-/

open Finset BigOperators

/-- The error taxonomy of the spec (section 7); each constructor labels one
failure point of the code. `emptyImages` is a failure point outside the
spec's taxonomy: the `torch.cat` over the collected images in
`get_attention_maps` (exp.py line 226), which fails on an empty dataset
before any cache retrieval is reached. -/
inductive Err where
  | configuration
  | emptyCache
  | invalidInput
  | emptyImages
deriving DecidableEq

/-- Embedding of `torch.eye(n)`: the identity matrix as a function. -/
def eye (n : ℕ) : Fin n → Fin n → ℚ :=
  fun i j => if i = j then 1 else 0

/-- Embedding of `torch.einsum('bij, bjk -> bik', ...)` for a single sample:
matrix product along the token axes. -/
def matmul {n : ℕ} (A B : Fin n → Fin n → ℚ) : Fin n → Fin n → ℚ :=
  fun i k => ∑ j, A i j * B j k

/-- Embedding of the per-layer correction `0.5 * x + 0.5 * torch.eye(n)`
applied to each attention matrix inside `attn_rollout` (exp.py line 262). -/
def resid_correct {n : ℕ} (A : Fin n → Fin n → ℚ) : Fin n → Fin n → ℚ :=
  fun i j => 0.5 * A i j + 0.5 * eye n i j

/-- Embedding of one iteration of the rollout loop (exp.py line 263):
`rollout = einsum('bij, bjk -> bik', rollout, 0.5 * attn + 0.5 * eye)`,
batched over the sample axis. -/
def rollout_step {b n : ℕ} (R A : Fin b → Fin n → Fin n → ℚ) :
    Fin b → Fin n → Fin n → ℚ :=
  fun s => matmul (R s) (resid_correct (A s))

/-- The loop of `attn_rollout`: start from the identity broadcast over the
sample axis (exp.py line 261) and fold `rollout_step` over the layer list. -/
def rollout_result {b n : ℕ} (ms : List (Fin b → Fin n → Fin n → ℚ)) :
    Fin b → Fin n → Fin n → ℚ :=
  ms.foldl rollout_step (fun _ => eye n)

/-- Embedding of `attn_rollout` (exp.py lines 252-264). On an empty layer
list the code fails at `attn_matrices[0].shape`; the spec's taxonomy names
that failure `InvalidInputError`. -/
def attn_rollout {b n : ℕ} (ms : List (Fin b → Fin n → Fin n → ℚ)) :
    Except Err (Fin b → Fin n → Fin n → ℚ) :=
  match ms with
  | [] => Except.error Err.invalidInput
  | _ :: _ => Except.ok (rollout_result ms)

/-- C3: invoking attention rollout on an empty sequence of layer matrices
fails with an `InvalidInputError` (at least one layer is required). -/
theorem attn_rollout_empty_fails (b n : ℕ) :
    @attn_rollout b n [] = Except.error Err.invalidInput := rfl

/-- Left-multiplying by the identity is the identity: the first rollout
step reduces to the residual-corrected first layer. -/
theorem matmul_eye_left {n : ℕ} (B : Fin n → Fin n → ℚ) : matmul (eye n) B = B := by
  funext i k
  simp [matmul, eye, ite_mul, Finset.sum_ite_eq]

/-- C7: for every single attention matrix `A` of shape (sample, token, token),
`attn_rollout [A]` returns exactly `0.5 * A + 0.5 * I`, the identity broadcast
over the sample axis. -/
theorem attn_rollout_single_layer {b n : ℕ} (A : Fin b → Fin n → Fin n → ℚ) :
    attn_rollout [A] =
      Except.ok (fun s i j => 0.5 * A s i j + 0.5 * eye n i j) := by
  unfold attn_rollout rollout_result
  simp only [List.foldl]
  congr 1
  funext s
  rw [rollout_step, matmul_eye_left]
  rfl

/-- Rows of the identity matrix sum to 1. -/
theorem eye_row_sum {n : ℕ} (i : Fin n) : ∑ j, eye n i j = 1 := by
  simp [eye, Finset.sum_ite_eq]

/-- Residual correction preserves unit row sums. -/
theorem resid_correct_row_sum {n : ℕ} (A : Fin n → Fin n → ℚ) (i : Fin n)
    (h : ∑ j, A i j = 1) : ∑ j, resid_correct A i j = 1 := by
  simp only [resid_correct, Finset.sum_add_distrib, ← Finset.mul_sum, h, eye_row_sum i]
  norm_num

/-- Row sums of a matrix product against a matrix with unit row sums. -/
theorem matmul_row_sum {n : ℕ} (A B : Fin n → Fin n → ℚ) (i : Fin n)
    (hB : ∀ j, ∑ k, B j k = 1) : ∑ k, matmul A B i k = ∑ j, A i j := by
  unfold matmul
  rw [Finset.sum_comm]
  simp [← Finset.mul_sum, hB]

/-- The rollout fold preserves unit row sums of its accumulator whenever every
layer matrix has unit row sums. -/
theorem rollout_fold_row_sum {b n : ℕ} (ms : List (Fin b → Fin n → Fin n → ℚ))
    (hms : ∀ A ∈ ms, ∀ (s : Fin b) (i : Fin n), ∑ j, A s i j = 1) :
    ∀ R0 : Fin b → Fin n → Fin n → ℚ,
      (∀ (s : Fin b) (i : Fin n), ∑ j, R0 s i j = 1) →
      ∀ (s : Fin b) (i : Fin n), ∑ j, ms.foldl rollout_step R0 s i j = 1 := by
  induction ms with
  | nil => intro R0 h0 s i; simpa using h0 s i
  | cons A as ih =>
    intro R0 h0 s i
    simp only [List.foldl]
    refine ih (fun M hM => hms M (List.mem_cons_of_mem _ hM)) _ ?_ s i
    intro t u
    rw [rollout_step, matmul_row_sum _ _ _
      (fun j => resid_correct_row_sum _ _ (hms A (List.mem_cons_self _ _) t j))]
    exact h0 t u

/-- C1: for every non-empty list of per-layer attention matrices of shape
(sample, token, token) in which every row of every matrix sums to 1, every
row of the matrix returned by `attn_rollout` also sums to 1, exactly, over
exact rational arithmetic. -/
theorem attn_rollout_row_stochastic {b n : ℕ} (ms : List (Fin b → Fin n → Fin n → ℚ))
    (hms : ∀ A ∈ ms, ∀ (s : Fin b) (i : Fin n), ∑ j, A s i j = 1)
    (R : Fin b → Fin n → Fin n → ℚ) (hR : attn_rollout ms = Except.ok R)
    (s : Fin b) (i : Fin n) : ∑ j, R s i j = 1 := by
  cases ms with
  | nil => simp [attn_rollout] at hR
  | cons A as =>
    have hres : rollout_result (A :: as) = R := by
      simpa [attn_rollout] using hR
    rw [← hres]
    exact rollout_fold_row_sum (A :: as) hms _ (fun t u => eye_row_sum u) s i

/-- A concrete one-layer batch: a single 2x2 attention matrix all of whose
entries are 1/2, so each row sums to 1. -/
def half_attn : Fin 1 → Fin 2 → Fin 2 → ℚ := fun _ _ _ => 0.5

/-- Witness for C1 at the one-element list `[half_attn]`. -/
theorem attn_rollout_row_stochastic_witness :
    (∀ A ∈ [half_attn], ∀ (s : Fin 1) (i : Fin 2), ∑ j, A s i j = 1) ∧
      ∑ j, rollout_result [half_attn] 0 0 j = 1 := by
  have hm : ∀ A ∈ [half_attn], ∀ (s : Fin 1) (i : Fin 2), ∑ j, A s i j = 1 := by
    intro A hA s i
    rw [List.mem_singleton] at hA
    subst hA
    norm_num [half_attn, Fin.sum_univ_two]
  exact ⟨hm, attn_rollout_row_stochastic [half_attn] hm (rollout_result [half_attn]) rfl 0 0⟩

/-- C8: for all attention matrices `A`, `B`, `C` of matching shape,
`attn_rollout [A, B]` right-multiplied (per sample) by the residual-corrected
matrix `0.5 * C + 0.5 * I` equals `attn_rollout [A, B, C]`, exactly. -/
theorem attn_rollout_layering {b n : ℕ} (A B C : Fin b → Fin n → Fin n → ℚ) :
    attn_rollout [A, B, C] =
      (attn_rollout [A, B]).map
        (fun R => fun s => matmul (R s) (fun i j => 0.5 * C s i j + 0.5 * eye n i j)) := rfl

/-- Embedding of the entry formula of the pixel-distance tensor built by
`_pixel_dist_matrix` (exp.py line 179): the Euclidean distance
`torch.sqrt((x - xx) ** 2 + (y - yy) ** 2)` between pixels (x, y) and (xx, yy). -/
noncomputable def pixelDist (x y xx yy : ℕ) : ℝ :=
  Real.sqrt (((x : ℝ) - xx) ^ 2 + ((y : ℝ) - yy) ^ 2)

/-- Embedding of `_pixel_dist_matrix(h, w)` (exp.py lines 172-182): the tensor
of shape (h, w, h, w) with `dist[x, y] = sqrt((x - xx)^2 + (y - yy)^2)`;
`Fin h`/`Fin w` indices are the valid pixel coordinates. -/
noncomputable def _pixel_dist_matrix (h w : ℕ) : Fin h → Fin w → Fin h → Fin w → ℝ :=
  fun x y xx yy => pixelDist x y xx yy

/-- The pixel distance is nonnegative, as a square root. -/
theorem pixelDist_nonneg (x y xx yy : ℕ) : 0 ≤ pixelDist x y xx yy :=
  Real.sqrt_nonneg _

/-- The pixel distance of a pixel to itself is zero. -/
theorem pixelDist_self (x y : ℕ) : pixelDist x y x y = 0 := by
  simp [pixelDist]

/-- The pixel distance is symmetric in its two pixel arguments. -/
theorem pixelDist_symm (x y xx yy : ℕ) : pixelDist x y xx yy = pixelDist xx yy x y := by
  unfold pixelDist
  congr 1
  ring

/-- C9: the pixel-distance matrix built inside `get_attention_distance` is
symmetric, zero on the diagonal, and everywhere nonnegative, for every height,
width and all valid pixel coordinates. -/
theorem pixel_dist_matrix_symm_diag_nonneg (h w : ℕ)
    (x1 : Fin h) (y1 : Fin w) (x2 : Fin h) (y2 : Fin w) :
    _pixel_dist_matrix h w x1 y1 x2 y2 = _pixel_dist_matrix h w x2 y2 x1 y1 ∧
      _pixel_dist_matrix h w x1 y1 x1 y1 = 0 ∧
      0 ≤ _pixel_dist_matrix h w x1 y1 x2 y2 :=
  ⟨pixelDist_symm x1 y1 x2 y2, pixelDist_self x1 y1, pixelDist_nonneg x1 y1 x2 y2⟩

/-- Embedding of the (num_layer, num_head) result of `get_attention_distance`
(exp.py lines 185-197) as a function of the cached attention maps
`attn_maps i b j q k` (layer, sample, head, query token, key token), the patch
grid (nh, nw) and the patch dimensions (ph, pw), with image height = nh * ph
and width = nw * pw as in the source. Entry (i, j) is
`torch.mean(torch.sum(head_attn_pixel * pixel_distance, dim=(-1, -2)))` where
`head_attn_pixel` replicates `attn_maps[i][:, j, 1:, 1:]` from the patch grid
to pixel coordinates (the einops.repeat at lines 189-192), so pixel (x, y) maps
to token `1 + ((x / ph) * nw + y / pw)`. -/
noncomputable def get_attention_distance (num_layer num_head data_size nh nw ph pw : ℕ)
    (attn_maps : ℕ → ℕ → ℕ → ℕ → ℕ → ℝ) : ℕ → ℕ → ℝ :=
  fun i j =>
    (∑ b in Finset.range data_size, ∑ x in Finset.range (nh * ph), ∑ y in Finset.range (nw * pw),
        ∑ xx in Finset.range (nh * ph), ∑ yy in Finset.range (nw * pw),
          attn_maps i b j (1 + ((x / ph) * nw + y / pw)) (1 + ((xx / ph) * nw + yy / pw)) *
            pixelDist x y xx yy) /
      ((data_size * (nh * ph) * (nw * pw) : ℕ) : ℝ)

/-- The identity attention map: every token attends only to itself, so in
particular its restriction to patch tokens is the identity matrix. -/
noncomputable def id_attn : ℕ → ℕ → ℕ → ℕ → ℕ → ℝ :=
  fun _ _ _ q k => if q = k then 1 else 0

/-- C2 counterexample: with a single 2x2-pixel patch (nh = nw = 1, ph = pw = 2)
and identity attention over the patch tokens, the mean attention distance is
`(8 + 4 * sqrt 2) / 4`, not 0: nearest-neighbor replication spreads each
patch's mass over all pixels of the patch, whose mutual distances are
positive. -/
theorem get_attention_distance_identity_not_zero :
    (∀ q k : ℕ, q < 1 * 1 → k < 1 * 1 →
        ∀ i b j : ℕ, id_attn i b j (1 + q) (1 + k) = if q = k then 1 else 0) ∧
      get_attention_distance 1 1 1 1 1 2 2 id_attn 0 0 ≠ 0 := by
  constructor
  · intro q k hq hk i b j
    have hq0 : q = 0 := by omega
    have hk0 : k = 0 := by omega
    subst hq0; subst hk0
    simp [id_attn]
  · have hv : get_attention_distance 1 1 1 1 1 2 2 id_attn 0 0 = (8 + 4 * Real.sqrt 2) / 4 := by
      simp only [get_attention_distance, id_attn, Finset.sum_range_succ, Finset.sum_range_zero,
        pixelDist]
      norm_num [Real.sqrt_eq_one]
      ring_nf
    rw [hv]
    positivity

/-- C2 (amended): if every cached per-layer attention matrix restricted to
patch tokens is the identity and the patch size is (1, 1) — so each patch
token is a single pixel, i.e. each pixel attends only to itself — then every
entry of the matrix returned by `get_attention_distance` is 0. -/
theorem get_attention_distance_identity_unit_patch
    (num_layer num_head data_size nh nw : ℕ)
    (attn_maps : ℕ → ℕ → ℕ → ℕ → ℕ → ℝ)
    (h : ∀ i b j q k, q < nh * nw → k < nh * nw →
      attn_maps i b j (1 + q) (1 + k) = if q = k then 1 else 0)
    (i j : ℕ) :
    get_attention_distance num_layer num_head data_size nh nw 1 1 attn_maps i j = 0 := by
  unfold get_attention_distance
  rw [div_eq_zero_iff]
  left
  refine Finset.sum_eq_zero fun b _ => ?_
  refine Finset.sum_eq_zero fun x hx => ?_
  refine Finset.sum_eq_zero fun y hy => ?_
  refine Finset.sum_eq_zero fun xx hxx => ?_
  refine Finset.sum_eq_zero fun yy hyy => ?_
  rw [Finset.mem_range] at hx hy hxx hyy
  simp only [Nat.mul_one, Nat.div_one] at *
  by_cases hsame : x = xx ∧ y = yy
  · obtain ⟨hx1, hy1⟩ := hsame
    subst hx1; subst hy1
    rw [pixelDist_self, mul_zero]
  · have hq : x * nw + y < nh * nw := by
      calc x * nw + y < x * nw + nw := by omega
        _ = (x + 1) * nw := by ring
        _ ≤ nh * nw := Nat.mul_le_mul_right _ (by omega)
    have hk : xx * nw + yy < nh * nw := by
      calc xx * nw + yy < xx * nw + nw := by omega
        _ = (xx + 1) * nw := by ring
        _ ≤ nh * nw := Nat.mul_le_mul_right _ (by omega)
    rw [h i b j _ _ hq hk]
    have hne : x * nw + y ≠ xx * nw + yy := by
      intro heq
      have hmod : y = yy := by
        have h1 : (x * nw + y) % nw = y := by
          rw [Nat.mul_comm x nw, Nat.mul_add_mod, Nat.mod_eq_of_lt hy]
        have h2 : (xx * nw + yy) % nw = yy := by
          rw [Nat.mul_comm xx nw, Nat.mul_add_mod, Nat.mod_eq_of_lt hyy]
        rw [heq, h2] at h1
        exact h1.symm
      have hxeq : x = xx := by
        subst hmod
        have hmul : x * nw = xx * nw := by omega
        exact Nat.eq_of_mul_eq_mul_right (by omega) hmul
      exact hsame ⟨hxeq, hmod⟩
    rw [if_neg hne, zero_mul]

/-- Witness for the amended C2 at layer grid 1x1 with identity attention. -/
theorem get_attention_distance_identity_unit_patch_witness :
    (∀ i b j q k : ℕ, q < 1 * 1 → k < 1 * 1 →
        id_attn i b j (1 + q) (1 + k) = if q = k then 1 else 0) ∧
      get_attention_distance 1 1 1 1 1 1 1 id_attn 0 0 = 0 := by
  have hm : ∀ i b j q k : ℕ, q < 1 * 1 → k < 1 * 1 →
      id_attn i b j (1 + q) (1 + k) = if q = k then 1 else 0 := by
    intro i b j q k hq hk
    have hq0 : q = 0 := by omega
    have hk0 : k = 0 := by omega
    subst hq0; subst hk0
    simp [id_attn]
  exact ⟨hm, get_attention_distance_identity_unit_patch 1 1 1 1 1 id_attn hm 0 0⟩

/-- C10: every entry of the matrix returned by `get_attention_distance` is
nonnegative whenever all cached attention values are nonnegative. -/
theorem get_attention_distance_nonneg (num_layer num_head data_size nh nw ph pw : ℕ)
    (attn_maps : ℕ → ℕ → ℕ → ℕ → ℕ → ℝ)
    (h : ∀ i b j q k, 0 ≤ attn_maps i b j q k) (i j : ℕ) :
    0 ≤ get_attention_distance num_layer num_head data_size nh nw ph pw attn_maps i j := by
  unfold get_attention_distance
  apply div_nonneg
  · refine Finset.sum_nonneg fun b _ => ?_
    refine Finset.sum_nonneg fun x _ => ?_
    refine Finset.sum_nonneg fun y _ => ?_
    refine Finset.sum_nonneg fun xx _ => ?_
    refine Finset.sum_nonneg fun yy _ => ?_
    exact mul_nonneg (h _ _ _ _ _) (pixelDist_nonneg _ _ _ _)
  · positivity

/-- Witness for C10 at the everywhere-zero attention map. -/
theorem get_attention_distance_nonneg_witness :
    (∀ i b j q k : ℕ, (0 : ℝ) ≤ (fun _ _ _ _ _ => (0 : ℝ)) i b j q k) ∧
      0 ≤ get_attention_distance 1 1 1 1 1 1 1 (fun _ _ _ _ _ => (0 : ℝ)) 0 0 :=
  ⟨fun _ _ _ _ _ => le_refl 0,
    get_attention_distance_nonneg 1 1 1 1 1 1 1 _ (fun _ _ _ _ _ => le_refl 0) 0 0⟩

/-- Embedding of the patch-to-pixel upsampling
`einops.repeat(v, 'b (nh nw) -> b (nh ph) (nw pw)', ...)` of
`get_attention_maps` (exp.py lines 244-247) for one sample (the analogous
four-axis form is used at lines 189-192): the patch-grid value tensor `v`,
flattened row-major over a (nh, nw) grid, is replicated to a pixel tensor of
shape (nh * ph, nw * pw); pixel (x, y) reads patch cell (x / ph, y / pw). -/
def patch_to_pixel (nh nw ph pw : ℕ) (v : ℕ → ℚ) : Fin (nh * ph) → Fin (nw * pw) → ℚ :=
  fun x y => v ((x.val / ph) * nw + y.val / pw)

/-- C6: every pixel lying inside patch cell (r, c) has exactly the source
value of cell (r, c) — nearest-neighbor replication, no interpolation — and
the output is indexed by `Fin (nh * ph) → Fin (nw * pw)`, so for patch size
(4, 4) and grid (2, 3) its shape is (8, 12). -/
theorem patch_to_pixel_replicates (nh nw ph pw : ℕ) (v : ℕ → ℚ) (r c : ℕ)
    (x : Fin (nh * ph)) (y : Fin (nw * pw))
    (hr1 : r * ph ≤ x.val) (hr2 : x.val < (r + 1) * ph)
    (hc1 : c * pw ≤ y.val) (hc2 : y.val < (c + 1) * pw) :
    patch_to_pixel nh nw ph pw v x y = v (r * nw + c) := by
  unfold patch_to_pixel
  rw [Nat.div_eq_of_lt_le hr1 hr2, Nat.div_eq_of_lt_le hc1 hc2]

/-- Witness for C6 at patch size (4, 4) and grid (2, 3): the output type is
`Fin (2 * 4) → Fin (3 * 4) → ℚ`, i.e. shape (8, 12), and pixel (5, 10), which
lies inside patch cell (1, 2), carries the source value of cell (1, 2). -/
theorem patch_to_pixel_replicates_witness :
    (1 * 4 ≤ 5 ∧ 5 < (1 + 1) * 4 ∧ 2 * 4 ≤ 10 ∧ 10 < (2 + 1) * 4) ∧
      patch_to_pixel 2 3 4 4 (fun k => (k : ℚ)) ⟨5, by norm_num⟩ ⟨10, by norm_num⟩ =
        ((1 * 3 + 2 : ℕ) : ℚ) :=
  ⟨⟨by norm_num, by norm_num, by norm_num, by norm_num⟩,
    patch_to_pixel_replicates 2 3 4 4 (fun k => (k : ℚ)) 1 2 ⟨5, by norm_num⟩ ⟨10, by norm_num⟩
      (by norm_num) (by norm_num) (by norm_num) (by norm_num)⟩

/-- Modelled from the spec: the divisibility precondition of the patch-to-pixel
mapping (spec section 4.2). The check itself lives in the ViT patch embedding
of `models.py`, which is absent from the analysed sources; `exp.py` only
computes `nh, nw = height // ph, width // pw` at its call sites (lines 166-168
and 241-243). Per the spec, when the image dimensions are not exact integer
multiples of the patch dimensions the mapping fails with a
`ConfigurationError`, before any heavy computation. -/
def patch_to_pixel_checked (height width ph pw : ℕ) (v : ℕ → ℚ) :
    Except Err (ℕ → ℕ → ℚ) :=
  if ph ∣ height ∧ pw ∣ width then
    Except.ok (fun x y => v ((x / ph) * (width / pw) + y / pw))
  else Except.error Err.configuration

/-- C4: when the image height is not an exact integer multiple of the patch
height, or the image width is not an exact integer multiple of the patch
width, the patch-to-pixel mapping fails with a `ConfigurationError`. -/
theorem patch_to_pixel_checked_config_error (height width ph pw : ℕ) (v : ℕ → ℚ)
    (h : ¬ (ph ∣ height ∧ pw ∣ width)) :
    patch_to_pixel_checked height width ph pw v = Except.error Err.configuration := by
  unfold patch_to_pixel_checked
  rw [if_neg h]

/-- Witness for C4: a 10x10 image with patch size (3, 3) fails with a
`ConfigurationError`. -/
theorem patch_to_pixel_checked_config_error_witness :
    ¬ ((3 : ℕ) ∣ 10 ∧ (3 : ℕ) ∣ 10) ∧
      patch_to_pixel_checked 10 10 3 3 (fun _ => 0) = Except.error Err.configuration :=
  ⟨by decide, patch_to_pixel_checked_config_error 10 10 3 3 (fun _ => 0) (by decide)⟩

/-- The attention cache of one attention module. The storing module
(`MultiHeadAttention` in `models.py`) is absent from the analysed sources;
its `enabled` flag and ordered `storage` follow spec section 4.1. A recorded
tensor is a `List σ` of per-sample slices, so concatenation along the sample
axis is list concatenation. -/
structure AttentionCache (σ : Type) where
  enabled : Bool
  storage : List (List σ)

/-- Modelled from the spec: one forward pass of the owning module appends the
batch's attention tensor to storage iff the cache is enabled (spec section
4.1, `record`). -/
def AttentionCache.record {σ : Type} (c : AttentionCache σ) (t : List σ) : AttentionCache σ :=
  if c.enabled then ⟨c.enabled, c.storage ++ [t]⟩ else c

/-- Embedding of the cache retrieval `torch.cat(module.cache['attn_map'], dim=0)`
performed by both `get_attention_distance` (exp.py line 162) and
`get_attention_maps` (exp.py line 233): concatenation of all stored tensors
along the sample axis in insertion order; on an empty storage `torch.cat`
fails, which the spec's taxonomy names `EmptyCacheError`. -/
def AttentionCache.retrieve {σ : Type} (c : AttentionCache σ) : Except Err (List σ) :=
  if c.storage.isEmpty then Except.error Err.emptyCache else Except.ok c.storage.flatten

/-- The analysis drivers' dataset loop: each batch of the dataset triggers one
forward pass, hence one `record` on the (enabled) cache. -/
def run_encoder {σ : Type} (c : AttentionCache σ) (batches : List (List σ)) : AttentionCache σ :=
  batches.foldl AttentionCache.record c

/-- Running the dataset loop on an enabled cache appends every batch to
storage, in order. -/
theorem run_encoder_storage {σ : Type} (batches : List (List σ)) (l : List (List σ)) :
    run_encoder (⟨true, l⟩ : AttentionCache σ) batches = ⟨true, l ++ batches⟩ := by
  induction batches generalizing l with
  | nil => simp [run_encoder]
  | cons t ts ih =>
    simp only [run_encoder, List.foldl, AttentionCache.record]
    simp only [run_encoder] at ih
    rw [if_pos trivial]
    rw [ih (l ++ [t])]
    simp

/-- Starting from an enabled, empty cache, retrieval after the dataset loop
fails iff the dataset had no batches, and otherwise returns the in-order
concatenation of the recorded tensors. -/
theorem run_encoder_retrieve {σ : Type} (batches : List (List σ)) :
    (run_encoder (⟨true, []⟩ : AttentionCache σ) batches).retrieve =
      if batches.isEmpty then Except.error Err.emptyCache
      else Except.ok batches.flatten := by
  rw [run_encoder_storage]
  unfold AttentionCache.retrieve
  cases batches <;> simp

/-- Embedding of `images = torch.cat(images, dim=0)` in `get_attention_maps`
(exp.py line 226): the collected image batches are concatenated along the
sample axis; `torch.cat` fails on the empty list, so an empty dataset fails
here — a plain RuntimeError, labelled `Err.emptyImages`, distinct from the
spec's `EmptyCacheError` and raised before the cache-retrieval loop at
lines 229-236. -/
def cat_images {ι : Type} (images : List (List ι)) : Except Err (List ι) :=
  if images.isEmpty then Except.error Err.emptyImages else Except.ok images.flatten

/-- Embedding of the retrieval prefix of `get_attention_distance` (exp.py
lines 150-164): the dataset loop runs the encoder once per batch, recording
one attention tensor per batch into the enabled cache (`attn_of` maps a batch
of images to the attention tensor the encoder records for it); the first
subsequent operation is the cache retrieval at line 162. -/
def get_attention_distance_retrieval {ι σ : Type} (batches : List (List ι))
    (attn_of : List ι → List σ) : Except Err (List σ) :=
  (run_encoder (⟨true, []⟩ : AttentionCache σ) (batches.map attn_of)).retrieve

/-- Embedding of the retrieval prefix of `get_attention_maps` (exp.py lines
217-236): the dataset loop runs the encoder once per batch, recording one
attention tensor per batch and collecting the batch's images; then the images
are concatenated (`torch.cat(images, dim=0)`, line 226), and only after that
is each module's cache retrieved (line 233). -/
def get_attention_maps_retrieval {ι σ : Type} (batches : List (List ι))
    (attn_of : List ι → List σ) : Except Err (List ι × List σ) :=
  match cat_images batches with
  | Except.error e => Except.error e
  | Except.ok imgs =>
    match (run_encoder (⟨true, []⟩ : AttentionCache σ) (batches.map attn_of)).retrieve with
    | Except.error e => Except.error e
    | Except.ok attn => Except.ok (imgs, attn)

/-- C5 counterexample: on an empty dataset `get_attention_maps` does not fail
at the point of cache retrieval with an `EmptyCacheError` — it fails earlier,
at the concatenation of the collected images (exp.py line 226). -/
theorem get_attention_maps_empty_fails_before_retrieval :
    get_attention_maps_retrieval ([] : List (List ℕ)) (fun b => b) =
        Except.error Err.emptyImages ∧
      Err.emptyImages ≠ Err.emptyCache :=
  ⟨rfl, by decide⟩

/-- C5 (amended): for every dataset, if the dataset is empty then
`get_attention_distance` fails with an `EmptyCacheError` at the point of cache
retrieval, while `get_attention_maps` fails already at the concatenation of
the collected images, before cache retrieval; otherwise the cache retrieval
performed by both entry points returns the concatenation of all stored
tensors along the sample axis in insertion order. -/
theorem maps_distance_empty_dataset_behavior {ι σ : Type} (batches : List (List ι))
    (attn_of : List ι → List σ) :
    get_attention_distance_retrieval batches attn_of =
        (if batches.isEmpty then Except.error Err.emptyCache
         else Except.ok ((batches.map attn_of).flatten)) ∧
      get_attention_maps_retrieval batches attn_of =
        (if batches.isEmpty then Except.error Err.emptyImages
         else Except.ok (batches.flatten, (batches.map attn_of).flatten)) := by
  constructor
  · unfold get_attention_distance_retrieval
    rw [run_encoder_retrieve]
    cases batches <;> simp
  · unfold get_attention_maps_retrieval cat_images
    cases batches with
    | nil => rfl
    | cons b bs =>
      rw [run_encoder_retrieve]
      simp
